import Mathlib

/-!
# Verification of the imf RFC5322 tokenizer

Shallow embedding of the grammar-level parsers of the imf repository
(buffer.rs, errors.rs, whitespaces.rs, quoted_string.rs, atom.rs, common.rs,
address.rs) and proofs about them.

Inputs are byte sequences, modelled as lists of naturals (each entry a byte
value). Rust byte-slice indexing that can go out of bounds is modelled
explicitly: an out-of-range access yields the distinguished outcome
ParseResult.panic rather than a value. Each while-loop of the source is
modelled as a structurally recursive function on an explicit fuel argument;
the wrappers supply fuel (input length + 1), which is sufficient because
every loop iteration of the source advances the index by at least one.

The output sink (std::io::Write) is modelled by Sink: an append-only byte
list together with an optional budget of successful write_all calls, so that
a sink whose writes can fail (an Io error in the source) is expressible.
write_all of an empty chunk always succeeds without consuming budget,
mirroring std's write_all, which performs no underlying write for an empty
buffer.
-/

/-- Grammar tokens from errors.rs (diagnostic payload of Token errors). -/
inductive Token where
  | Fws | Cfws | Comment | QuotedPair | QuotedString | QuotedText
  | Address | Domain | Atom | DotAtom | Atext | Word
deriving DecidableEq

/-- Error kinds. Eof and Token (and the Io case, here IoErr) are the
variants of errors.rs; Parsing is the variant the whitespaces/quoted_string/
atom/common/address modules construct (referenced there as
ErrorKind::Parsing). -/
inductive ErrorKind where
  | Eof
  | Token (token : Token) (byte : Nat) (position : Nat)
  | Parsing
  | IoErr
deriving DecidableEq

/-- Result of a parse function: ok carries (remaining, read), exactly the
pair produced by parse_ok(buf, i) = Ok((&buf[i..], &buf[..i])); panic models
a Rust panic (out-of-bounds slice index). -/
inductive ParseResult where
  | ok (remaining read : List Nat)
  | err (kind : ErrorKind)
  | panic
deriving DecidableEq

/-- parse_ok(buf, i): Ok((&buf[i..], &buf[..i])). Slicing with i beyond the
buffer length would panic in Rust, hence the guard. -/
def parse_ok (buf : List Nat) (i : Nat) : ParseResult :=
  if i ≤ buf.length then .ok (buf.drop i) (buf.take i) else .panic

/-- The output sink. budget = none: writes always succeed; budget = some k:
k further (non-empty) write_all calls succeed, then writes fail with Io. -/
structure Sink where
  budget : Option Nat
  out : List Nat
deriving DecidableEq

/-- write_all: appends the whole chunk or fails (none = Io error). An empty
chunk is a no-op that always succeeds. -/
def write_all (w : Sink) (chunk : List Nat) : Option Sink :=
  if chunk.isEmpty then some w
  else
    match w.budget with
    | none => some { w with out := w.out ++ chunk }
    | some 0 => none
    | some (k + 1) => some { budget := some k, out := w.out ++ chunk }

/-- A sink with unlimited budget and empty output. -/
def inf_writer : Sink := { budget := none, out := [] }

/-- Loop outcome used for the source loops that are followed by further
parsing in the same function: cont i = the loop exited normally with index
i, fail k = an early error return from inside the loop. -/
inductive LoopRes where
  | cont (i : Nat)
  | fail (kind : ErrorKind)
  | panic
deriving DecidableEq

/-- (buf.take b).drop a: the bytes of buf at positions a ≤ p < b. -/
def bslice (buf : List Nat) (a b : Nat) : List Nat := (buf.take b).drop a

/-! ## whitespaces.rs -/

/-- is_wsp: space or horizontal tab. -/
def is_wsp (c : Nat) : Bool := c == 32 || c == 9

/-- Loop of read_fws: returns the final index. A CRLF is consumed only when
i + 2 < len and it is followed by LF and a WSP. -/
def read_fws_go (buf : List Nat) : Nat → Nat → Nat
  | 0, i => i
  | fuel + 1, i =>
    if h : i < buf.length then
      if is_wsp buf[i] then read_fws_go buf fuel (i + 1)
      else if buf[i] = 13 then
        if i + 2 < buf.length ∧ buf.getD (i + 1) 0 = 10 ∧ is_wsp (buf.getD (i + 2) 0) then
          read_fws_go buf fuel (i + 3)
        else i
      else i
    else i

/-- read_fws (whitespaces.rs): recognize folding whitespace. -/
def read_fws (buf : List Nat) : ParseResult :=
  if buf.isEmpty then .err .Parsing
  else
    let i := read_fws_go buf (buf.length + 1) 0
    if i = 0 then .err .Parsing else parse_ok buf i

/-- Loop of unfold_fws, carrying next_write and the sink. Except-error means
a write failed (Io): the pre-failure writer is returned. -/
def unfold_fws_go (buf : List Nat) :
    Nat → Nat → Nat → Sink → Except Sink (Nat × Nat × Sink)
  | 0, i, nw, w => .ok (i, nw, w)
  | fuel + 1, i, nw, w =>
    if h : i < buf.length then
      if is_wsp buf[i] then unfold_fws_go buf fuel (i + 1) nw w
      else if buf[i] = 13 then
        match write_all w (bslice buf nw i) with
        | none => .error w
        | some w1 =>
          if i + 2 < buf.length ∧ buf.getD (i + 1) 0 = 10 ∧ is_wsp (buf.getD (i + 2) 0) then
            unfold_fws_go buf fuel (i + 3) (i + 2) w1
          else .ok (i, nw, w1)
      else .ok (i, nw, w)
    else .ok (i, nw, w)

/-- unfold_fws (whitespaces.rs): recognize folding whitespace, writing it to
the sink with the CRLFs elided. -/
def unfold_fws (buf : List Nat) (w : Sink) : ParseResult × Sink :=
  if buf.isEmpty then (.err .Parsing, w)
  else
    match unfold_fws_go buf (buf.length + 1) 0 0 w with
    | .error w1 => (.err .IoErr, w1)
    | .ok (i, nw, w1) =>
      if i = 0 then (.err .Parsing, w1)
      else
        match write_all w1 (bslice buf nw i) with
        | none => (.err .IoErr, w1)
        | some w2 => (parse_ok buf i, w2)

/-- Loop of read_comment: nested is the nesting counter (starts at 1); a
backslash skips the next byte (i + 2). The source decrements and tests
against 0; started from 1 the counter never reaches 0 without returning,
so testing nested = 1 before decrementing is the same computation. -/
def read_comment_go (buf : List Nat) : Nat → Nat → Nat → ParseResult
  | 0, _, _ => .err .Parsing
  | fuel + 1, nested, i =>
    if h : i < buf.length then
      if buf[i] = 92 then read_comment_go buf fuel nested (i + 2)
      else if buf[i] = 41 then
        if nested = 1 then parse_ok buf (i + 1)
        else read_comment_go buf fuel (nested - 1) (i + 1)
      else if buf[i] = 40 then read_comment_go buf fuel (nested + 1) (i + 1)
      else read_comment_go buf fuel nested (i + 1)
    else .err .Parsing

/-- read_comment (whitespaces.rs): recognize a (possibly nested) comment. -/
def read_comment (buf : List Nat) : ParseResult :=
  if buf.length < 2 then .err .Parsing
  else if buf.getD 0 0 ≠ 40 then .err .Parsing
  else read_comment_go buf (buf.length + 1) 1 1

/-- Loop of read_cfws: optional FWS, then a comment; a comment failure ends
the loop (error if nothing at all was consumed). -/
def read_cfws_go (buf : List Nat) : Nat → Nat → ParseResult
  | 0, _ => .err .Parsing
  | fuel + 1, i =>
    if i < buf.length then
      let step := fun (i1 : Nat) =>
        match read_comment (buf.drop i1) with
        | .panic => .panic
        | .ok _ cmt => read_cfws_go buf fuel (i1 + cmt.length)
        | .err _ => if i1 = 0 then .err .Parsing else parse_ok buf i1
      match read_fws (buf.drop i) with
      | .panic => .panic
      | .ok _ fws => step (i + fws.length)
      | .err _ => step i
    else if i > 0 then parse_ok buf i else .err .Parsing

/-- read_cfws (whitespaces.rs). -/
def read_cfws (buf : List Nat) : ParseResult :=
  if buf.isEmpty then .err .Parsing
  else read_cfws_go buf (buf.length + 1) 0

/-- replace_cfws (whitespaces.rs): read_cfws, then write a single space. -/
def replace_cfws (buf : List Nat) (w : Sink) : ParseResult × Sink :=
  match read_cfws buf with
  | .panic => (.panic, w)
  | .err k => (.err k, w)
  | .ok rem read =>
    match write_all w [32] with
    | none => (.err .IoErr, w)
    | some w1 => (.ok rem read, w1)

/-- replace_fws (whitespaces.rs): read_fws, then write a single space. -/
def replace_fws (buf : List Nat) (w : Sink) : ParseResult × Sink :=
  match read_fws buf with
  | .panic => (.panic, w)
  | .err k => (.err k, w)
  | .ok rem read =>
    match write_all w [32] with
    | none => (.err .IoErr, w)
    | some w1 => (.ok rem read, w1)

/-! ## quoted_string.rs -/

/-- is_valid_qtext: anything in 1..=127 except tab, LF, CR, space, the
double quote and the backslash. -/
def is_valid_qtext (c : Nat) : Bool :=
  decide (0 < c) && decide (c ≤ 127) && c != 9 && c != 10 && c != 13 &&
    c != 32 && c != 34 && c != 92

/-- read_quoted_pair (quoted_string.rs): a backslash followed by a byte
at most 127 (FIXME: UNUSED in the source). -/
def read_quoted_pair (buf : List Nat) : ParseResult :=
  if buf.length < 2 ∨ buf.getD 0 0 ≠ 92 ∨ buf.getD 1 0 > 127 then .err .Parsing
  else parse_ok buf 2

/-- Loop of parse_qcontent, carrying last_write and the sink. On a
backslash the pending span is flushed, then the source tests
i == buf.len() (never true inside the loop) and otherwise indexes
buf[i + 1], which panics when the backslash is the last byte. -/
def parse_qcontent_go (buf : List Nat) :
    Nat → Nat → Nat → Sink → ParseResult × Sink
  | 0, _, _, w => (.err .Parsing, w)
  | fuel + 1, i, lw, w =>
    if h : i < buf.length then
      if is_valid_qtext buf[i] then parse_qcontent_go buf fuel (i + 1) lw w
      else if buf[i] = 92 then
        match write_all w (bslice buf lw i) with
        | none => (.err .IoErr, w)
        | some w1 =>
          if i = buf.length then (.err .Parsing, w1)
          else if h2 : i + 1 < buf.length then
            if buf[i + 1] > 127 then (.err .Parsing, w1)
            else parse_qcontent_go buf fuel (i + 2) (i + 1) w1
          else (.panic, w1)
      else if i = 0 then (.err .Parsing, w)
      else
        match write_all w (bslice buf lw i) with
        | none => (.err .IoErr, w)
        | some w1 => (parse_ok buf i, w1)
    else
      match write_all w (bslice buf lw i) with
      | none => (.err .IoErr, w)
      | some w1 => (parse_ok buf i, w1)

/-- parse_qcontent (quoted_string.rs): read quoted content, writing it with
the escape backslashes removed. -/
def parse_qcontent (buf : List Nat) (w : Sink) : ParseResult × Sink :=
  if buf.isEmpty then (.err .Parsing, w)
  else parse_qcontent_go buf (buf.length + 1) 0 0 w

/-- Loop of read_qcontent: same recognition as parse_qcontent without the
sink, including the out-of-bounds access on a trailing backslash. -/
def read_qcontent_go (buf : List Nat) : Nat → Nat → ParseResult
  | 0, _ => .err .Parsing
  | fuel + 1, i =>
    if h : i < buf.length then
      if is_valid_qtext buf[i] then read_qcontent_go buf fuel (i + 1)
      else if buf[i] = 92 then
        if i = buf.length then .err .Parsing
        else if h2 : i + 1 < buf.length then
          if buf[i + 1] > 127 then .err .Parsing
          else read_qcontent_go buf fuel (i + 2)
        else .panic
      else if i = 0 then .err .Parsing
      else parse_ok buf i
    else parse_ok buf i

/-- read_qcontent (quoted_string.rs). -/
def read_qcontent (buf : List Nat) : ParseResult :=
  if buf.isEmpty then .err .Parsing
  else read_qcontent_go buf (buf.length + 1) 0

/-- Loop of parse_quoted_string over ([FWS] qcontent) pairs: an Io failure
from either sub-parse returns immediately, a Parsing failure of the FWS is
ignored and a Parsing failure of the qcontent ends the loop. -/
def parse_qs_go (buf : List Nat) : Nat → Nat → Sink → LoopRes × Sink
  | 0, _, w => (.fail .Parsing, w)
  | fuel + 1, i, w =>
    if i < buf.length then
      let step := fun (i1 : Nat) (w1 : Sink) =>
        match parse_qcontent (buf.drop i1) w1 with
        | (.panic, w2) => (LoopRes.panic, w2)
        | (.ok _ q, w2) => parse_qs_go buf fuel (i1 + q.length) w2
        | (.err .IoErr, w2) => (.fail .IoErr, w2)
        | (.err _, w2) => (.cont i1, w2)
      match replace_fws (buf.drop i) w with
      | (.panic, w1) => (.panic, w1)
      | (.ok _ fws, w1) => step (i + fws.length) w1
      | (.err .IoErr, w1) => (.fail .IoErr, w1)
      | (.err _, w1) => step i w1
    else (.cont i, w)

/-- parse_quoted_string (quoted_string.rs): optional CFWS, a double quote,
([FWS] qcontent) pairs with FWS replaced by one space and escapes removed,
a closing double quote, optional CFWS. -/
def parse_quoted_string (buf : List Nat) (w : Sink) : ParseResult × Sink :=
  match read_cfws buf with
  | .panic => (.panic, w)
  | r0 =>
  let i0 := match r0 with | .ok _ cfws => cfws.length | _ => 0
  if h0 : i0 < buf.length then
    if buf[i0] = 34 then
      match parse_qs_go buf (buf.length + 1) (i0 + 1) w with
      | (.panic, w1) => (.panic, w1)
      | (.fail k, w1) => (.err k, w1)
      | (.cont i, w1) =>
        if h1 : i < buf.length then
          if buf[i] = 34 then
            match read_cfws (buf.drop (i + 1)) with
            | .panic => (.panic, w1)
            | .ok _ cfws => (parse_ok buf (i + 1 + cfws.length), w1)
            | .err _ => (parse_ok buf (i + 1), w1)
          else (.err .Parsing, w1)
        else (.err .Parsing, w1)
    else (.err .Parsing, w)
  else (.err .Parsing, w)

/-- Loop of read_quoted_string over ([FWS] qcontent) pairs (no sink). -/
def read_qs_go (buf : List Nat) : Nat → Nat → LoopRes
  | 0, _ => .fail .Parsing
  | fuel + 1, i =>
    if i < buf.length then
      let step := fun (i1 : Nat) =>
        match read_qcontent (buf.drop i1) with
        | .panic => LoopRes.panic
        | .ok _ q => read_qs_go buf fuel (i1 + q.length)
        | .err .IoErr => .fail .IoErr
        | .err _ => .cont i1
      match read_fws (buf.drop i) with
      | .panic => LoopRes.panic
      | .ok _ fws => step (i + fws.length)
      | .err .IoErr => .fail .IoErr
      | .err _ => step i
    else .cont i

/-- read_quoted_string (quoted_string.rs). -/
def read_quoted_string (buf : List Nat) : ParseResult :=
  match read_cfws buf with
  | .panic => .panic
  | r0 =>
  let i0 := match r0 with | .ok _ cfws => cfws.length | _ => 0
  if h0 : i0 < buf.length then
    if buf[i0] = 34 then
      match read_qs_go buf (buf.length + 1) (i0 + 1) with
      | .panic => .panic
      | .fail k => .err k
      | .cont i =>
        if h1 : i < buf.length then
          if buf[i] = 34 then
            match read_cfws (buf.drop (i + 1)) with
            | .panic => .panic
            | .ok _ cfws => parse_ok buf (i + 1 + cfws.length)
            | .err _ => parse_ok buf (i + 1)
          else .err .Parsing
        else .err .Parsing
    else .err .Parsing
  else .err .Parsing

/-! ## atom.rs -/

/-- is_alphabetical (atom.rs). -/
def is_alphabetical (c : Nat) : Bool :=
  (decide (65 ≤ c) && decide (c ≤ 90)) || (decide (97 ≤ c) && decide (c ≤ 122))

/-- is_digit (atom.rs). -/
def is_digit (c : Nat) : Bool := decide (48 ≤ c) && decide (c ≤ 57)

/-- is_atext (atom.rs): letters, digits and the RFC5322 atext punctuation. -/
def is_atext (c : Nat) : Bool :=
  is_alphabetical c || is_digit c ||
    c == 33 || c == 35 || c == 36 || c == 37 || c == 38 || c == 39 ||
    c == 42 || c == 43 || c == 45 || c == 47 || c == 61 || c == 63 ||
    c == 94 || c == 95 || c == 96 || c == 123 || c == 124 || c == 125 ||
    c == 126

/-- Loop of read_atom_text. -/
def read_atom_text_go (buf : List Nat) : Nat → Nat → Nat
  | 0, i => i
  | fuel + 1, i =>
    if h : i < buf.length then
      if is_atext buf[i] then read_atom_text_go buf fuel (i + 1) else i
    else i

/-- read_atom_text (atom.rs): one or more atext bytes. -/
def read_atom_text (buf : List Nat) : ParseResult :=
  let i := read_atom_text_go buf (buf.length + 1) 0
  if i = 0 then .err .Parsing else parse_ok buf i

/-- Loop of read_dot_atom_text: a dot is consumed only when immediately
followed by a further atext byte. -/
def read_dot_atom_text_go (buf : List Nat) : Nat → Nat → Nat
  | 0, i => i
  | fuel + 1, i =>
    if h : i < buf.length then
      if is_atext buf[i] then read_dot_atom_text_go buf fuel (i + 1)
      else if buf[i] = 46 then
        if i + 1 < buf.length ∧ is_atext (buf.getD (i + 1) 0) then
          read_dot_atom_text_go buf fuel (i + 2)
        else i
      else i
    else i

/-- read_dot_atom_text (atom.rs). -/
def read_dot_atom_text (buf : List Nat) : ParseResult :=
  let i := read_dot_atom_text_go buf (buf.length + 1) 0
  if i = 0 then .err .Parsing else parse_ok buf i

/-- read_atom (atom.rs): [CFWS] 1*atext [CFWS]. -/
def read_atom (buf : List Nat) : ParseResult :=
  match read_cfws buf with
  | .panic => .panic
  | r0 =>
  let i0 := match r0 with | .ok _ cfws => cfws.length | _ => 0
  match read_atom_text (buf.drop i0) with
  | .panic => .panic
  | .err k => .err k
  | .ok _ atom =>
    match read_cfws (buf.drop (i0 + atom.length)) with
    | .panic => .panic
    | .ok _ cfws2 => parse_ok buf (i0 + atom.length + cfws2.length)
    | .err _ => parse_ok buf (i0 + atom.length)

/-- parse_atom (atom.rs): like read_atom, writing the bare atext span (and
nothing else) to the sink. -/
def parse_atom (buf : List Nat) (w : Sink) : ParseResult × Sink :=
  match read_cfws buf with
  | .panic => (.panic, w)
  | r0 =>
  let i0 := match r0 with | .ok _ cfws => cfws.length | _ => 0
  match read_atom_text (buf.drop i0) with
  | .panic => (.panic, w)
  | .err k => (.err k, w)
  | .ok _ atom =>
    match write_all w atom with
    | none => (.err .IoErr, w)
    | some w1 =>
      match read_cfws (buf.drop (i0 + atom.length)) with
      | .panic => (.panic, w1)
      | .ok _ cfws2 => (parse_ok buf (i0 + atom.length + cfws2.length), w1)
      | .err _ => (parse_ok buf (i0 + atom.length), w1)

/-- parse_dot_atom (atom.rs). -/
def parse_dot_atom (buf : List Nat) (w : Sink) : ParseResult × Sink :=
  match read_cfws buf with
  | .panic => (.panic, w)
  | r0 =>
  let i0 := match r0 with | .ok _ cfws => cfws.length | _ => 0
  match read_dot_atom_text (buf.drop i0) with
  | .panic => (.panic, w)
  | .err k => (.err k, w)
  | .ok _ atom =>
    match write_all w atom with
    | none => (.err .IoErr, w)
    | some w1 =>
      match read_cfws (buf.drop (i0 + atom.length)) with
      | .panic => (.panic, w1)
      | .ok _ cfws2 => (parse_ok buf (i0 + atom.length + cfws2.length), w1)
      | .err _ => (parse_ok buf (i0 + atom.length), w1)

/-! ## common.rs -/

/-- is_obs_no_ws_ctl (common.rs). -/
def is_obs_no_ws_ctl (c : Nat) : Bool :=
  (decide (1 ≤ c) && decide (c ≤ 8)) || c == 11 || c == 12 ||
    (decide (14 ≤ c) && decide (c ≤ 31)) || c == 127

/-- parse_word (common.rs): parse_atom, falling back to parse_quoted_string
only on a Parsing-kind failure. -/
def parse_word (buf : List Nat) (w : Sink) : ParseResult × Sink :=
  match parse_atom buf w with
  | (.ok rem read, w1) => (.ok rem read, w1)
  | (.panic, w1) => (.panic, w1)
  | (.err k, w1) =>
    match k with
    | .Parsing => parse_quoted_string buf w1
    | _ => (.err k, w1)

/-- Loop of parse_phrase after the first word (common.rs, lines 123-152):
on a word failure of Parsing kind the source returns the error (and falls
through to the other alternatives on any other kind); the replace_cfws arm
behaves the same way; otherwise a literal dot is consumed and written. -/
def parse_phrase_go (buf : List Nat) : Nat → Nat → Sink → ParseResult × Sink
  | 0, _, w => (.err .Parsing, w)
  | fuel + 1, i, w =>
    if h : i < buf.length then
      match parse_word (buf.drop i) w with
      | (.panic, w1) => (.panic, w1)
      | (.ok _ word, w1) => parse_phrase_go buf fuel (i + word.length) w1
      | (.err k, w1) =>
        match k with
        | .Parsing => (.err .Parsing, w1)
        | _ =>
          match replace_cfws (buf.drop i) w1 with
          | (.panic, w2) => (.panic, w2)
          | (.ok _ cfws, w2) => parse_phrase_go buf fuel (i + cfws.length) w2
          | (.err k2, w2) =>
            match k2 with
            | .Parsing => (.err .Parsing, w2)
            | _ =>
              if buf[i] = 46 then
                match write_all w2 [46] with
                | none => (.err .IoErr, w2)
                | some w3 => parse_phrase_go buf fuel (i + 1) w3
              else (parse_ok buf i, w2)
    else (parse_ok buf i, w)

/-- parse_phrase (common.rs): a mandatory word, then the loop above. -/
def parse_phrase (buf : List Nat) (w : Sink) : ParseResult × Sink :=
  match parse_word buf w with
  | (.panic, w1) => (.panic, w1)
  | (.err k, w1) => (.err k, w1)
  | (.ok _ word, w1) => parse_phrase_go buf (buf.length + 1) word.length w1

/-! ## address.rs -/

/-- Loop of parse_obsolete_local_part after the first word: further words
are parsed until one fails with a Parsing-kind error (then the already
consumed prefix is returned); any other failure propagates. -/
def parse_obsolete_local_part_go (buf : List Nat) :
    Nat → Nat → Sink → ParseResult × Sink
  | 0, _, w => (.err .Parsing, w)
  | fuel + 1, i, w =>
    if i < buf.length then
      match parse_word (buf.drop i) w with
      | (.panic, w1) => (.panic, w1)
      | (.ok _ word, w1) => parse_obsolete_local_part_go buf fuel (i + word.length) w1
      | (.err k, w1) =>
        match k with
        | .Parsing => (parse_ok buf i, w1)
        | _ => (.err k, w1)
    else (parse_ok buf i, w)

/-- parse_obsolete_local_part (address.rs, lines 59-72). -/
def parse_obsolete_local_part (buf : List Nat) (w : Sink) : ParseResult × Sink :=
  match parse_word buf w with
  | (.panic, w1) => (.panic, w1)
  | (.err k, w1) => (.err k, w1)
  | (.ok _ word, w1) => parse_obsolete_local_part_go buf (buf.length + 1) word.length w1

/-- parse_new_local_part (address.rs, lines 104-110): parse_dot_atom,
falling back to parse_quoted_string on a Parsing-kind failure. -/
def parse_new_local_part (buf : List Nat) (w : Sink) : ParseResult × Sink :=
  match parse_dot_atom buf w with
  | (.panic, w1) => (.panic, w1)
  | (.ok _ read, w1) => (parse_ok buf read.length, w1)
  | (.err k, w1) =>
    match k with
    | .Parsing =>
      match parse_quoted_string buf w1 with
      | (.panic, w2) => (.panic, w2)
      | (.ok _ read, w2) => (parse_ok buf read.length, w2)
      | (.err k2, w2) => (.err k2, w2)
    | _ => (.err k, w1)

/-- Loop of parse_domain_literal over ([FWS] dtext): FWS is replaced by one
space; a dtext byte is written verbatim; a quoted pair writes the escaped
byte. After the FWS the source indexes buf[i] without re-checking the loop
bound, which panics when the FWS reached the end of the input. -/
def parse_domain_literal_go (buf : List Nat) : Nat → Nat → Sink → LoopRes × Sink
  | 0, _, w => (.fail .Parsing, w)
  | fuel + 1, i, w =>
    if i < buf.length then
      let step := fun (i1 : Nat) (w1 : Sink) =>
        if h : i1 < buf.length then
          if is_obs_no_ws_ctl buf[i1] ∨ (33 ≤ buf[i1] ∧ buf[i1] ≤ 90) ∨
              (94 ≤ buf[i1] ∧ buf[i1] ≤ 126) then
            match write_all w1 [buf[i1]] with
            | none => (LoopRes.fail .IoErr, w1)
            | some w2 => parse_domain_literal_go buf fuel (i1 + 1) w2
          else if buf[i1] = 92 then
            if i1 + 1 < buf.length ∧ buf.getD (i1 + 1) 0 < 127 then
              match write_all w1 [buf.getD (i1 + 1) 0] with
              | none => (LoopRes.fail .IoErr, w1)
              | some w2 => parse_domain_literal_go buf fuel (i1 + 2) w2
            else (.fail .Parsing, w1)
          else (.cont i1, w1)
        else (.panic, w1)
      match replace_fws (buf.drop i) w with
      | (.panic, w1) => (.panic, w1)
      | (.ok _ fws, w1) => step (i + fws.length) w1
      | (.err .Parsing, w1) => step i w1
      | (.err k, w1) => (.fail k, w1)
    else (.cont i, w)

/-- parse_domain_literal (address.rs, lines 151-208): optional CFWS, an
opening bracket, the dtext loop, optional CFWS, then a check (without
consumption) that the current byte is a closing bracket, a second CFWS
read at that same position, and parse_ok at the current index. -/
def parse_domain_literal (buf : List Nat) (w : Sink) : ParseResult × Sink :=
  match read_cfws buf with
  | .panic => (.panic, w)
  | r0 =>
  let i0 := match r0 with | .ok _ cfws => cfws.length | _ => 0
  if h0 : i0 < buf.length then
    if buf[i0] = 91 then
      match parse_domain_literal_go buf (buf.length + 1) (i0 + 1) w with
      | (.panic, w1) => (.panic, w1)
      | (.fail k, w1) => (.err k, w1)
      | (.cont i, w1) =>
        match read_cfws (buf.drop i) with
        | .panic => (.panic, w1)
        | r1 =>
        let i2 := match r1 with | .ok _ cfws => i + cfws.length | _ => i
        if h2 : i2 < buf.length then
          if buf[i2] = 93 then
            match read_cfws (buf.drop i2) with
            | .panic => (.panic, w1)
            | r2 =>
            let i3 := match r2 with | .ok _ cfws => i2 + cfws.length | _ => i2
            (parse_ok buf i3, w1)
          else (.err .Parsing, w1)
        else (.err .Parsing, w1)
    else (.err .Parsing, w)
  else (.err .Parsing, w)

/-! ## buffer.rs -/

/-- Buffer (buffer.rs): a view over an immutable byte sequence together
with a position. -/
structure Buffer where
  inner : List Nat
  position : Nat
deriving DecidableEq

/-- Buffer::read_n (buffer.rs, lines 70-78): the source succeeds only when
position + n is strictly below the input length. -/
def Buffer.read_n (b : Buffer) (n : Nat) : Except ErrorKind (List Nat × Buffer) :=
  if b.position + n < b.inner.length then
    .ok (bslice b.inner b.position (b.position + n),
      { b with position := b.position + n })
  else .error .Eof

/-! ## Specification helpers -/

/-- Escape removal performed by parse_qcontent: each backslash that begins
a quoted pair is dropped and the escaped byte is kept verbatim; every other
byte is kept verbatim. -/
def qc_unescape : List Nat → List Nat
  | [] => []
  | b :: rest =>
    if b = 92 then
      match rest with
      | [] => [b]
      | c :: rest2 => c :: qc_unescape rest2
    else b :: qc_unescape rest

/-! ## Helper lemmas -/

theorem qc_unescape_cons_ne {b : Nat} {l : List Nat} (h : b ≠ 92) :
    qc_unescape (b :: l) = b :: qc_unescape l := by
  rw [qc_unescape.eq_def]
  simp [h]

theorem qc_unescape_pair (c : Nat) (l : List Nat) :
    qc_unescape (92 :: c :: l) = c :: qc_unescape l := rfl

theorem bslice_self (buf : List Nat) (a : Nat) : bslice buf a a = [] := by
  apply List.drop_eq_nil_of_le
  simp [List.length_take]

theorem bslice_zero_left (buf : List Nat) (n : Nat) :
    bslice buf 0 n = buf.take n := rfl

theorem bslice_nil_of_len_le {buf : List Nat} {a : Nat} (b : Nat)
    (h : buf.length ≤ a) : bslice buf a b = [] := by
  apply List.drop_eq_nil_of_le
  simp [List.length_take]
  omega

theorem bslice_cons {buf : List Nat} {a b : Nat} (hab : a < b)
    (ha : a < buf.length) :
    bslice buf a b = buf[a] :: bslice buf (a + 1) b := by
  unfold bslice
  rw [List.drop_eq_getElem_cons (by simp [List.length_take]; omega)]
  congr 1
  simp

theorem bslice_snoc {buf : List Nat} {a b : Nat} (hab : a ≤ b)
    (hb : b < buf.length) :
    bslice buf a (b + 1) = bslice buf a b ++ [buf[b]] := by
  unfold bslice
  rw [List.take_succ, List.getElem?_eq_getElem hb]
  simp only [Option.toList_some]
  rw [List.drop_append_of_le_length (by simp [List.length_take]; omega)]

theorem bslice_append {buf : List Nat} {a b c : Nat} (h1 : a ≤ b) (h2 : b ≤ c) :
    bslice buf a c = bslice buf a b ++ bslice buf b c := by
  by_cases hlen : b ≤ buf.length
  · unfold bslice
    have ht : buf.take b = (buf.take c).take b := by
      rw [List.take_take]; congr 1; omega
    conv_lhs => rw [← List.take_append_drop b (buf.take c)]
    rw [List.drop_append_of_le_length (by simp [List.length_take]; omega)]
    rw [← ht]
  · push_neg at hlen
    have hb : buf.length ≤ b := le_of_lt hlen
    have hc : buf.length ≤ c := le_trans hb h2
    unfold bslice
    rw [List.take_of_length_le hb, List.take_of_length_le hc,
      List.drop_eq_nil_of_le hb]
    simp

theorem length_bslice (buf : List Nat) (a b : Nat) :
    (bslice buf a b).length = min b buf.length - a := by
  simp [bslice, List.length_take]

theorem write_all_out {w : Sink} {c : List Nat} {w1 : Sink}
    (h : write_all w c = some w1) : w1.out = w.out ++ c := by
  unfold write_all at h
  split at h
  · injection h with h1
    subst h1
    simp_all [List.isEmpty_iff]
  · split at h
    · injection h with h1; subst h1; rfl
    · exact Option.noConfusion h
    · injection h with h1; subst h1; rfl

theorem write_all_of_budget_none {w : Sink} (c : List Nat)
    (h : w.budget = none) :
    write_all w c = some { budget := none, out := w.out ++ c } := by
  cases w with
  | mk budget out =>
    subst h
    unfold write_all
    split
    · simp_all [List.isEmpty_iff]
    · rfl

theorem parse_ok_ok {buf : List Nat} {i : Nat} {rem read : List Nat}
    (h : parse_ok buf i = .ok rem read) :
    read = buf.take i ∧ rem = buf.drop i ∧ i ≤ buf.length := by
  by_cases hle : i ≤ buf.length
  · simp only [parse_ok, if_pos hle, ParseResult.ok.injEq] at h
    exact ⟨h.2.symm, h.1.symm, hle⟩
  · simp only [parse_ok, if_neg hle] at h
    exact ParseResult.noConfusion h

theorem parse_ok_ok_length {buf : List Nat} {i : Nat} {rem read : List Nat}
    (h : parse_ok buf i = .ok rem read) : read.length = i := by
  obtain ⟨hr, _, hle⟩ := parse_ok_ok h
  subst hr
  simp [List.length_take]
  omega

theorem exact_split_of_parse_ok {buf : List Nat} {i : Nat} {rem read : List Nat}
    (h : parse_ok buf i = .ok rem read) :
    read.length ≤ buf.length ∧ read ++ rem = buf ∧
      read = buf.take read.length ∧ rem = buf.drop read.length := by
  obtain ⟨hr, hm, hle⟩ := parse_ok_ok h
  have hlen : read.length = i := parse_ok_ok_length h
  subst hr; subst hm
  rw [hlen]
  exact ⟨hle, List.take_append_drop i buf, rfl, rfl⟩

/-! ## Claim theorems: concrete evaluations -/

/-- C1: evaluation of parse_domain_literal at the claim's own input
"[192.168.0.1]" (bytes 91,49,57,50,46,49,54,56,46,48,46,49,93). The parse
succeeds but consumes only 12 of the 13 bytes (the closing bracket is
checked yet never consumed, remaining = "]"), and the sink receives only
"192.168.0.1": neither bracket is ever written. This contradicts the claim
that the brackets are reproduced and the whole input consumed. -/
theorem parse_domain_literal_drops_brackets :
    parse_domain_literal [91, 49, 57, 50, 46, 49, 54, 56, 46, 48, 46, 49, 93]
        inf_writer =
      (.ok [93] [91, 49, 57, 50, 46, 49, 54, 56, 46, 48, 46, 49],
       { budget := none, out := [49, 57, 50, 46, 49, 54, 56, 46, 48, 46, 49] }) :=
  rfl

/-- C2: on the local-part "foo.bar" (bytes 102,111,111,46,98,97,114) the
strict parser parse_new_local_part consumes all 7 bytes and writes
"foo.bar", while parse_obsolete_local_part stops at the first dot (its loop
never consumes the dots of word *("." word)): it consumes only 3 bytes and
writes "foo". The two parsers do not agree, contradicting the claim. -/
theorem local_part_strict_vs_obsolete_foo_bar :
    parse_new_local_part [102, 111, 111, 46, 98, 97, 114] inf_writer =
      (.ok [] [102, 111, 111, 46, 98, 97, 114],
       { budget := none, out := [102, 111, 111, 46, 98, 97, 114] }) ∧
    parse_obsolete_local_part [102, 111, 111, 46, 98, 97, 114] inf_writer =
      (.ok [46, 98, 97, 114] [102, 111, 111],
       { budget := none, out := [102, 111, 111] }) :=
  ⟨rfl, rfl⟩

/-- C3: the error-handling arms of parse_phrase are inverted with respect
to the claim. First conjunct: on "a ." (bytes 97,32,46) the second word
fails with a Parsing (grammar-mismatch) error and parse_phrase returns that
error instead of falling back to the CFWS and dot alternatives (the claim
requires success consuming all three bytes). Second conjunct: on "a b"
with a sink that allows exactly one successful write, the second word fails
with an Io error, which is swallowed (the claim requires it to abort the
phrase as Io) and the phrase then fails with a Parsing error from the
CFWS alternative. -/
theorem parse_phrase_error_arms_inverted :
    parse_phrase [97, 32, 46] inf_writer =
      (.err .Parsing, { budget := none, out := [97] }) ∧
    parse_phrase [97, 32, 98] { budget := some 1, out := [] } =
      (.err .Parsing, { budget := some 0, out := [97] }) :=
  ⟨rfl, rfl⟩

/-- C5: a backslash that is the last byte of the input makes both
parse_qcontent and read_qcontent index buf[i + 1] one past the end of the
buffer (the guard tests i == buf.len(), which is never true inside the
loop): the outcome is a panic, not a returned Eof error. A byte above 127
after the backslash yields an ErrorKind::Parsing error, not a Token error. -/
theorem qcontent_trailing_backslash_panics :
    parse_qcontent [92] inf_writer = (.panic, inf_writer) ∧
    read_qcontent [92] = .panic ∧
    read_qcontent [92, 200] = .err .Parsing :=
  ⟨rfl, rfl, rfl⟩

/-- C6 (amended): read_comment consumes "(a (nested (comment)))" whole,
consumes the whole of "(a\)b)" (the escaped close parenthesis does not
terminate the comment), and fails on "(unterminated" with an
ErrorKind::Parsing error (this module reports every grammar/EOF failure as
Parsing, not Eof). -/
theorem read_comment_examples :
    read_comment [40, 97, 32, 40, 110, 101, 115, 116, 101, 100, 32, 40, 99,
        111, 109, 109, 101, 110, 116, 41, 41, 41] =
      .ok [] [40, 97, 32, 40, 110, 101, 115, 116, 101, 100, 32, 40, 99, 111,
        109, 109, 101, 110, 116, 41, 41, 41] ∧
    read_comment [40, 97, 92, 41, 98, 41] = .ok [] [40, 97, 92, 41, 98, 41] ∧
    read_comment [40, 117, 110, 116, 101, 114, 109, 105, 110, 97, 116, 101,
        100] = .err .Parsing :=
  ⟨rfl, rfl, rfl⟩

/-- C6 counterexample: on "(unterminated" read_comment does not return an
Eof-kind error (it returns ErrorKind::Parsing), refuting the claim's
error-kind assertion. -/
theorem read_comment_unterminated_not_eof :
    ¬ read_comment [40, 117, 110, 116, 101, 114, 109, 105, 110, 97, 116,
        101, 100] = .err .Eof := by
  decide

/-- C8 counterexample: on " \r" (bytes 32,13) read_fws succeeds consuming
the single space, but unfold_fws writes that pending space twice (once when
it reaches the CR and flushes, once after the loop, because next_write is
not advanced when the CR turns out not to begin a fold): the output is two
spaces, not the consumed run with CRLFs removed. -/
theorem unfold_fws_bare_cr_double_write :
    read_fws [32, 13] = .ok [13] [32] ∧
    (unfold_fws [32, 13] inf_writer).2.out = [32, 32] ∧
    (unfold_fws [32, 13] inf_writer).2.out ≠ List.filter is_wsp [32] := by
  exact ⟨rfl, rfl, by decide⟩

/-- C9: Buffer::read_n requires position + n strictly below the length
(an off-by-one): with exactly n bytes remaining it returns Eof even though
the requested extent is available, and it succeeds when more than n bytes
remain. -/
theorem buffer_read_n_exact_boundary_eof :
    Buffer.read_n { inner := [10, 20], position := 0 } 2 = .error .Eof ∧
    Buffer.read_n { inner := [10, 20, 30], position := 0 } 2 =
      .ok ([10, 20], { inner := [10, 20, 30], position := 2 }) :=
  ⟨rfl, rfl⟩

/-- C7: the read_comment loop terminates within (input length - start
index) iterations whatever the nesting counter: any two fuel values
exceeding that bound give the same result, for every input and every
nesting level. In particular read_comment, which runs the loop with fuel
length + 1, is a total function of its input and its running time is
bounded by the input length, independent of the comment nesting depth. -/
theorem read_comment_loop_fuel_bound :
    ∀ (buf : List Nat) (n m nested i : Nat),
      buf.length - i < n → buf.length - i < m →
      read_comment_go buf n nested i = read_comment_go buf m nested i := by
  intro buf n
  induction n with
  | zero => intro m nested i hn _; omega
  | succ n ih =>
    intro m nested i hn hm
    cases m with
    | zero => omega
    | succ m =>
      simp only [read_comment_go]
      split
      case isTrue h =>
        split
        case isTrue => exact ih m nested (i + 2) (by omega) (by omega)
        case isFalse =>
          split
          case isTrue =>
            split
            case isTrue => rfl
            case isFalse => exact ih m (nested - 1) (i + 1) (by omega) (by omega)
          case isFalse =>
            split
            case isTrue => exact ih m (nested + 1) (i + 1) (by omega) (by omega)
            case isFalse => exact ih m nested (i + 1) (by omega) (by omega)
      case isFalse => rfl

/-- Witness for the C7 theorem at a concrete comment and two fuels. -/
theorem read_comment_loop_fuel_bound_witness :
    ([40, 97, 41] : List Nat).length - 1 < 9 ∧
    ([40, 97, 41] : List Nat).length - 1 < 3 ∧
    read_comment_go [40, 97, 41] 9 1 1 = read_comment_go [40, 97, 41] 3 1 1 :=
  ⟨by decide, by decide,
    read_comment_loop_fuel_bound [40, 97, 41] 9 3 1 1 (by decide) (by decide)⟩

theorem read_fws_ok_shape {buf rem read : List Nat}
    (h : read_fws buf = .ok rem read) :
    ∃ i, parse_ok buf i = .ok rem read := by
  unfold read_fws at h
  split at h
  · exact ParseResult.noConfusion h
  · simp only at h
    split at h
    · exact ParseResult.noConfusion h
    · exact ⟨_, h⟩

theorem read_comment_go_ok_shape {buf rem read : List Nat} :
    ∀ fuel nested i, read_comment_go buf fuel nested i = .ok rem read →
      ∃ j, parse_ok buf j = .ok rem read := by
  intro fuel
  induction fuel with
  | zero => intro nested i h; exact ParseResult.noConfusion h
  | succ fuel ih =>
    intro nested i h
    simp only [read_comment_go] at h
    split at h
    · split at h
      · exact ih _ _ h
      · split at h
        · split at h
          · exact ⟨_, h⟩
          · exact ih _ _ h
        · split at h
          · exact ih _ _ h
          · exact ih _ _ h
    · exact ParseResult.noConfusion h

theorem read_comment_ok_shape {buf rem read : List Nat}
    (h : read_comment buf = .ok rem read) :
    ∃ j, parse_ok buf j = .ok rem read := by
  unfold read_comment at h
  split at h
  · exact ParseResult.noConfusion h
  · split at h
    · exact ParseResult.noConfusion h
    · exact read_comment_go_ok_shape _ _ _ h

theorem read_cfws_go_ok_shape {buf rem read : List Nat} :
    ∀ fuel i, read_cfws_go buf fuel i = .ok rem read →
      ∃ j, parse_ok buf j = .ok rem read := by
  intro fuel
  induction fuel with
  | zero => intro i h; exact ParseResult.noConfusion h
  | succ fuel ih =>
    intro i h
    simp only [read_cfws_go] at h
    split at h
    · split at h
      · exact ParseResult.noConfusion h
      · split at h
        · exact ParseResult.noConfusion h
        · exact ih _ h
        · split at h
          · exact ParseResult.noConfusion h
          · exact ⟨_, h⟩
      · split at h
        · exact ParseResult.noConfusion h
        · exact ih _ h
        · split at h
          · exact ParseResult.noConfusion h
          · exact ⟨_, h⟩
    · split at h
      · exact ⟨_, h⟩
      · exact ParseResult.noConfusion h

theorem read_cfws_ok_shape {buf rem read : List Nat}
    (h : read_cfws buf = .ok rem read) :
    ∃ j, parse_ok buf j = .ok rem read := by
  unfold read_cfws at h
  split at h
  · exact ParseResult.noConfusion h
  · exact read_cfws_go_ok_shape _ _ h

theorem read_quoted_string_ok_shape {buf rem read : List Nat}
    (h : read_quoted_string buf = .ok rem read) :
    ∃ j, parse_ok buf j = .ok rem read := by
  unfold read_quoted_string at h
  split at h
  · exact ParseResult.noConfusion h
  · simp only at h
    split at h
    · split at h
      · split at h
        · exact ParseResult.noConfusion h
        · exact ParseResult.noConfusion h
        · split at h
          · split at h
            · split at h
              · exact ParseResult.noConfusion h
              · exact ⟨_, h⟩
              · exact ⟨_, h⟩
            · exact ParseResult.noConfusion h
          · exact ParseResult.noConfusion h
      · exact ParseResult.noConfusion h
    · exact ParseResult.noConfusion h

/-- C10: whenever read_fws, read_comment, read_cfws or read_quoted_string
succeeds, the reported (remaining, read) pair is an exact split of the
input: the consumed length is at most the input length, read is the prefix
of that length, remaining is the matching suffix, and their concatenation
is the unmodified input. -/
theorem recognizers_exact_split (buf rem read : List Nat)
    (h : read_fws buf = .ok rem read ∨ read_comment buf = .ok rem read ∨
      read_cfws buf = .ok rem read ∨ read_quoted_string buf = .ok rem read) :
    read.length ≤ buf.length ∧ read ++ rem = buf ∧
      read = buf.take read.length ∧ rem = buf.drop read.length := by
  rcases h with h | h | h | h
  · obtain ⟨j, hj⟩ := read_fws_ok_shape h
    exact exact_split_of_parse_ok hj
  · obtain ⟨j, hj⟩ := read_comment_ok_shape h
    exact exact_split_of_parse_ok hj
  · obtain ⟨j, hj⟩ := read_cfws_ok_shape h
    exact exact_split_of_parse_ok hj
  · obtain ⟨j, hj⟩ := read_quoted_string_ok_shape h
    exact exact_split_of_parse_ok hj

/-- Witness for the C10 theorem: the comment "(c)x" splits exactly. -/
theorem recognizers_exact_split_witness :
    read_comment [40, 99, 41, 120] = .ok [120] [40, 99, 41] ∧
    ([40, 99, 41] : List Nat).length ≤ ([40, 99, 41, 120] : List Nat).length ∧
    [40, 99, 41] ++ [120] = [40, 99, 41, 120] ∧
    ([40, 99, 41] : List Nat) =
      ([40, 99, 41, 120] : List Nat).take ([40, 99, 41] : List Nat).length ∧
    ([120] : List Nat) =
      ([40, 99, 41, 120] : List Nat).drop ([40, 99, 41] : List Nat).length :=
  ⟨rfl, recognizers_exact_split [40, 99, 41, 120] [120] [40, 99, 41]
    (Or.inr (Or.inl rfl))⟩

theorem qtext_ne_92 {c : Nat} (h : is_valid_qtext c = true) : c ≠ 92 := by
  simp [is_valid_qtext] at h
  omega

theorem parse_qcontent_go_out (buf : List Nat) :
    ∀ fuel i lw w rem read w1,
      lw ≤ i → i ≤ buf.length →
      parse_qcontent_go buf fuel i lw w = (.ok rem read, w1) →
      i ≤ read.length ∧ read.length ≤ buf.length ∧
        read = buf.take read.length ∧
        w1.out = w.out ++ bslice buf lw i ++
          qc_unescape (bslice buf i read.length) := by
  intro fuel
  induction fuel with
  | zero => intro i lw w rem read w1 _ _ h; simp [parse_qcontent_go] at h
  | succ fuel ih =>
    intro i lw w rem read w1 hlw hi h
    simp only [parse_qcontent_go] at h
    split at h
    case isTrue hlt =>
      split at h
      case isTrue hq =>
        have hne : buf[i] ≠ 92 := qtext_ne_92 hq
        obtain ⟨h1, h2, hread, h3⟩ :=
          ih (i + 1) lw w rem read w1 (by omega) (by omega) h
        refine ⟨by omega, h2, hread, ?_⟩
        rw [h3, bslice_snoc hlw hlt,
          bslice_cons (show i < read.length by omega) hlt,
          qc_unescape_cons_ne hne]
        simp [List.append_assoc]
      case isFalse hq =>
        split at h
        case isTrue hbs =>
          split at h
          next hw => simp at h
          next w2 hw2 =>
            split at h
            case isTrue => simp at h
            case isFalse =>
              split at h
              case isTrue h2 =>
                split at h
                case isTrue => simp at h
                case isFalse h127 =>
                  obtain ⟨h1, hlen2, hread, h3⟩ :=
                    ih (i + 2) (i + 1) w2 rem read w1 (by omega) (by omega) h
                  refine ⟨by omega, hlen2, hread, ?_⟩
                  rw [h3, write_all_out hw2,
                    bslice_cons (show i < read.length by omega) hlt,
                    bslice_cons (show i + 1 < read.length by omega) h2, hbs,
                    qc_unescape_pair,
                    bslice_cons (show i + 1 < i + 2 by omega) h2, bslice_self]
                  simp [List.append_assoc]
              case isFalse => simp at h
        case isFalse hbs =>
          split at h
          case isTrue => simp at h
          case isFalse hi0 =>
            split at h
            next hw => simp at h
            next w2 hw2 =>
              rw [Prod.mk.injEq] at h
              obtain ⟨hpo, hw1⟩ := h
              have hn := parse_ok_ok_length hpo
              obtain ⟨hr, _, hile⟩ := parse_ok_ok hpo
              subst hw1
              refine ⟨by omega, by omega, by rw [hn]; exact hr, ?_⟩
              rw [write_all_out hw2, hn, bslice_self]
              simp [qc_unescape]
    case isFalse hge =>
      split at h
      next hw => simp at h
      next w2 hw2 =>
        rw [Prod.mk.injEq] at h
        obtain ⟨hpo, hw1⟩ := h
        have hn := parse_ok_ok_length hpo
        obtain ⟨hr, _, hile⟩ := parse_ok_ok hpo
        subst hw1
        refine ⟨by omega, by omega, by rw [hn]; exact hr, ?_⟩
        rw [write_all_out hw2, hn, bslice_self]
        simp [qc_unescape]

/-- C4: whenever parse_qcontent succeeds, the bytes appended to the sink
are exactly qc_unescape of the consumed bytes: every backslash that begins
a quoted pair is elided from the output and the escaped byte that followed
it appears verbatim in its place. -/
theorem parse_qcontent_unescapes (buf : List Nat) (w : Sink)
    (rem read : List Nat) (w1 : Sink)
    (h : parse_qcontent buf w = (.ok rem read, w1)) :
    w1.out = w.out ++ qc_unescape read := by
  unfold parse_qcontent at h
  split at h
  · simp at h
  · obtain ⟨_, _, hread, h3⟩ :=
      parse_qcontent_go_out buf (buf.length + 1) 0 0 w rem read w1
        (le_refl 0) (Nat.zero_le _) h
    rw [h3, bslice_self, bslice_zero_left, ← hread]
    simp

/-- Witness for the C4 theorem: the input backslash,q,a is consumed whole;
the output drops the escape backslash and keeps q and a verbatim. -/
theorem parse_qcontent_unescapes_witness :
    parse_qcontent [92, 113, 97] inf_writer =
      (.ok [] [92, 113, 97], { budget := none, out := [113, 97] }) ∧
    ({ budget := none, out := [113, 97] } : Sink).out =
      inf_writer.out ++ qc_unescape [92, 113, 97] :=
  ⟨rfl, parse_qcontent_unescapes [92, 113, 97] inf_writer [] [92, 113, 97]
    { budget := none, out := [113, 97] } rfl⟩

theorem filter_wsp_of_all {l : List Nat} (h : ∀ x ∈ l, is_wsp x = true) :
    l.filter is_wsp = l :=
  List.filter_eq_self.mpr h

theorem unfold_fws_go_spec (buf : List Nat) :
    ∀ fuel i nw w, w.budget = none → nw ≤ i → i ≤ buf.length →
      (∀ x ∈ bslice buf nw i, is_wsp x = true) →
      ∃ nw1 w1,
        unfold_fws_go buf fuel i nw w =
          .ok (read_fws_go buf fuel i, nw1, w1) ∧
        w1.budget = none ∧
        nw ≤ nw1 ∧ nw1 ≤ read_fws_go buf fuel i ∧
        i ≤ read_fws_go buf fuel i ∧
        read_fws_go buf fuel i ≤ buf.length ∧
        (∀ x ∈ bslice buf nw1 (read_fws_go buf fuel i), is_wsp x = true) ∧
        (w1.out = w.out ++ List.filter is_wsp (bslice buf nw nw1) ∨
          (read_fws_go buf fuel i < buf.length ∧
           buf.getD (read_fws_go buf fuel i) 0 = 13 ∧
           w1.out = w.out ++ List.filter is_wsp (bslice buf nw nw1) ++
             bslice buf nw1 (read_fws_go buf fuel i))) := by
  intro fuel
  induction fuel with
  | zero =>
    intro i nw w hw hnwi hil hwsp
    refine ⟨nw, w, rfl, hw, le_refl nw, hnwi, le_refl i, hil, hwsp, Or.inl ?_⟩
    rw [bslice_self]
    simp
  | succ fuel ih =>
    intro i nw w hw hnwi hil hwsp
    by_cases hlt : i < buf.length
    · by_cases hws : is_wsp buf[i] = true
      · have hR : read_fws_go buf (fuel + 1) i = read_fws_go buf fuel (i + 1) := by
          simp only [read_fws_go]
          rw [dif_pos hlt, if_pos hws]
        have hU : unfold_fws_go buf (fuel + 1) i nw w =
            unfold_fws_go buf fuel (i + 1) nw w := by
          simp only [unfold_fws_go]
          rw [dif_pos hlt, if_pos hws]
        have hwsp1 : ∀ x ∈ bslice buf nw (i + 1), is_wsp x = true := by
          rw [bslice_snoc hnwi hlt]
          intro x hx
          rcases List.mem_append.mp hx with hx | hx
          · exact hwsp x hx
          · rw [List.mem_singleton.mp hx]; exact hws
        obtain ⟨nw1, w1, heq, hb, h1, h2, h3, h4, h5, hout⟩ :=
          ih (i + 1) nw w hw (by omega) (by omega) hwsp1
        rw [hR, hU]
        exact ⟨nw1, w1, heq, hb, h1, h2, by omega, h4, h5, hout⟩
      · by_cases hcr : buf[i] = 13
        · have hw2 : write_all w (bslice buf nw i) =
              some { budget := none, out := w.out ++ bslice buf nw i } :=
            write_all_of_budget_none _ hw
          by_cases hC : i + 2 < buf.length ∧ buf.getD (i + 1) 0 = 10 ∧
              is_wsp (buf.getD (i + 2) 0) = true
          · have hR : read_fws_go buf (fuel + 1) i =
                read_fws_go buf fuel (i + 3) := by
              simp only [read_fws_go]
              rw [dif_pos hlt, if_neg hws, if_pos hcr, if_pos hC]
            have hU : unfold_fws_go buf (fuel + 1) i nw w =
                unfold_fws_go buf fuel (i + 3) (i + 2)
                  { budget := none, out := w.out ++ bslice buf nw i } := by
              simp only [unfold_fws_go]
              rw [dif_pos hlt, if_neg hws, if_pos hcr, hw2]
              exact if_pos hC
            have hwsp23 : ∀ x ∈ bslice buf (i + 2) (i + 3), is_wsp x = true := by
              rw [bslice_cons (by omega) (by omega), bslice_self]
              intro x hx
              rw [List.mem_singleton.mp hx]
              rw [← List.getD_eq_getElem buf 0 (by omega)]
              exact hC.2.2
            obtain ⟨nw1, w1, heq, hb, h1, h2, h3, h4, h5, hout⟩ :=
              ih (i + 3) (i + 2)
                { budget := none, out := w.out ++ bslice buf nw i }
                rfl (by omega) (by omega) hwsp23
            refine ⟨nw1, w1, by rw [hU, hR]; exact heq, hb, by omega,
              by rw [hR]; exact h2, by rw [hR]; omega, by rw [hR]; exact h4,
              by rw [hR]; exact h5, ?_⟩
            have h10 : buf[i + 1] = 10 := by
              rw [← List.getD_eq_getElem buf 0 (by omega)]
              exact hC.2.1
            have hslice2 : bslice buf i (i + 2) = [13, 10] := by
              rw [bslice_cons (show i < i + 2 by omega) hlt,
                bslice_cons (show i + 1 < i + 2 by omega) (by omega),
                bslice_self, hcr, h10]
            have hsplit : bslice buf nw nw1 =
                bslice buf nw i ++ ([13, 10] ++ bslice buf (i + 2) nw1) := by
              rw [bslice_append (show nw ≤ i by omega) (show i ≤ nw1 by omega),
                bslice_append (show i ≤ i + 2 by omega)
                  (show i + 2 ≤ nw1 by omega), hslice2]
            have hfilter : List.filter is_wsp (bslice buf nw nw1) =
                bslice buf nw i ++ List.filter is_wsp (bslice buf (i + 2) nw1) := by
              rw [hsplit, List.filter_append, List.filter_append,
                filter_wsp_of_all hwsp]
              simp [is_wsp]
            rw [hR]
            rcases hout with hout | ⟨hc1, hc2, hout⟩
            · left
              rw [hout, hfilter]
              simp [List.append_assoc]
            · right
              refine ⟨hc1, hc2, ?_⟩
              rw [hout, hfilter]
              simp [List.append_assoc]
          · have hR : read_fws_go buf (fuel + 1) i = i := by
              simp only [read_fws_go]
              rw [dif_pos hlt, if_neg hws, if_pos hcr, if_neg hC]
            have hU : unfold_fws_go buf (fuel + 1) i nw w =
                .ok (i, nw, { budget := none, out := w.out ++ bslice buf nw i }) := by
              simp only [unfold_fws_go]
              rw [dif_pos hlt, if_neg hws, if_pos hcr, hw2]
              exact if_neg hC
            refine ⟨nw, { budget := none, out := w.out ++ bslice buf nw i },
              by rw [hU, hR], rfl, le_refl nw, by rw [hR]; exact hnwi,
              by rw [hR], by rw [hR]; exact hil, by rw [hR]; exact hwsp,
              Or.inr ?_⟩
            rw [hR]
            refine ⟨hlt, by rw [List.getD_eq_getElem buf 0 hlt]; exact hcr, ?_⟩
            rw [bslice_self]
            simp
        · have hR : read_fws_go buf (fuel + 1) i = i := by
            simp only [read_fws_go]
            rw [dif_pos hlt, if_neg hws, if_neg hcr]
          have hU : unfold_fws_go buf (fuel + 1) i nw w = .ok (i, nw, w) := by
            simp only [unfold_fws_go]
            rw [dif_pos hlt, if_neg hws, if_neg hcr]
          refine ⟨nw, w, by rw [hU, hR], hw, le_refl nw, by rw [hR]; exact hnwi,
            by rw [hR], by rw [hR]; exact hil, by rw [hR]; exact hwsp, Or.inl ?_⟩
          rw [bslice_self]
          simp
    · have hR : read_fws_go buf (fuel + 1) i = i := by
        simp only [read_fws_go]
        rw [dif_neg hlt]
      have hU : unfold_fws_go buf (fuel + 1) i nw w = .ok (i, nw, w) := by
        simp only [unfold_fws_go]
        rw [dif_neg hlt]
      refine ⟨nw, w, by rw [hU, hR], hw, le_refl nw, by rw [hR]; exact hnwi,
        by rw [hR], by rw [hR]; exact hil, by rw [hR]; exact hwsp, Or.inl ?_⟩
      rw [bslice_self]
      simp

/-- C8 (amended): unfold_fws recognizes exactly what read_fws recognizes —
with a sink whose writes always succeed it returns the same result (same
success or failure and same consumed split) — and on success it writes
exactly the consumed whitespace run with the CRLF bytes elided, except when
recognition stopped at a CR byte that does not begin a valid fold, in which
case the pending segment after the last fold is written twice. The output
characterization below therefore carries the side condition that the byte
after the consumed run (if any) is not CR. -/
theorem unfold_fws_matches_read_fws (buf : List Nat) :
    (unfold_fws buf inf_writer).1 = read_fws buf ∧
    (∀ rem read, read_fws buf = .ok rem read →
      (read.length = buf.length ∨ buf.getD read.length 0 ≠ 13) →
      (unfold_fws buf inf_writer).2.out = List.filter is_wsp read) := by
  by_cases hemp : buf.isEmpty = true
  · refine ⟨?_, ?_⟩
    · unfold unfold_fws read_fws
      rw [if_pos hemp, if_pos hemp]
    · intro rem read h hside
      unfold read_fws at h
      rw [if_pos hemp] at h
      exact ParseResult.noConfusion h
  · obtain ⟨nw1, w1, heq, hb, h1, h2, h3, h4, h5, hout⟩ :=
      unfold_fws_go_spec buf (buf.length + 1) 0 0 inf_writer rfl (le_refl 0)
        (Nat.zero_le _) (by rw [bslice_self]; intro x hx; cases hx)
    by_cases hz : read_fws_go buf (buf.length + 1) 0 = 0
    · have hu : unfold_fws buf inf_writer = (.err .Parsing, w1) := by
        simp only [unfold_fws, if_neg hemp, heq]
        rw [if_pos hz]
      have hr : read_fws buf = .err .Parsing := by
        simp only [read_fws, if_neg hemp]
        rw [if_pos hz]
      refine ⟨by rw [hu, hr], ?_⟩
      intro rem read hok hside
      rw [hr] at hok
      exact ParseResult.noConfusion hok
    · have hw2 : write_all w1
          (bslice buf nw1 (read_fws_go buf (buf.length + 1) 0)) =
          some ⟨none, w1.out ++ bslice buf nw1 (read_fws_go buf (buf.length + 1) 0)⟩ :=
        write_all_of_budget_none _ hb
      have hu : unfold_fws buf inf_writer =
          (parse_ok buf (read_fws_go buf (buf.length + 1) 0),
           ⟨none, w1.out ++ bslice buf nw1 (read_fws_go buf (buf.length + 1) 0)⟩) := by
        simp only [unfold_fws, if_neg hemp, heq]
        rw [if_neg hz, hw2]
      have hr : read_fws buf =
          parse_ok buf (read_fws_go buf (buf.length + 1) 0) := by
        simp only [read_fws, if_neg hemp]
        rw [if_neg hz]
      refine ⟨by rw [hu, hr], ?_⟩
      intro rem read hok hside
      rw [hr] at hok
      have hlen := parse_ok_ok_length hok
      obtain ⟨hread, _, hle⟩ := parse_ok_ok hok
      rw [hu]
      rcases hout with hout | ⟨hc1, hc2, _⟩
      · have hgoal : w1.out ++
            bslice buf nw1 (read_fws_go buf (buf.length + 1) 0) =
            List.filter is_wsp read := by
          rw [hout]
          simp only [inf_writer, List.nil_append]
          rw [← filter_wsp_of_all h5, ← List.filter_append,
            ← bslice_append (Nat.zero_le nw1) h2, bslice_zero_left, ← hread]
        exact hgoal
      · exfalso
        rw [hlen] at hside
        rcases hside with hside | hside
        · omega
        · exact hside hc2

/-- Witness for the C8 theorem at the claim's example " \r\n  x": five
consumed bytes, output is three spaces (the CRLF is elided). -/
theorem unfold_fws_matches_read_fws_witness :
    read_fws [32, 13, 10, 32, 32, 120] = .ok [120] [32, 13, 10, 32, 32] ∧
    (unfold_fws [32, 13, 10, 32, 32, 120] inf_writer).2.out =
      List.filter is_wsp [32, 13, 10, 32, 32] :=
  ⟨rfl, (unfold_fws_matches_read_fws [32, 13, 10, 32, 32, 120]).2
    [120] [32, 13, 10, 32, 32] rfl (Or.inr (by decide))⟩
